import Mathlib

/-!
Verification of the specification of the `vscode-prototype` repository
against a shallow embedding of its two components:

* `src/src/data_processor.py` — the tabular processor (`DataProcessor`);
* `src/scripts/test_docs.py` — the documentation validator (`DocsValidator`).

Tables are embedded as ordered column names plus rows of values; the
pandas aggregation functions that `calculate_statistics` delegates to are
modelled as an explicit `StatsLib` parameter (the spec declares dataframe
numeric semantics a non-goal).  The validator is embedded over an `Env`
record that models the file system, the parsed YAML manifest and the
outcomes of the delegated markdown/Python-parsing libraries; each check
is a pure function from `Env` to its appended error strings, appended
warning strings, and boolean-or-exception outcome.
-/

/-! ## Tabular processor: data model -/

/-- A cell of the in-memory table: an integer, a string, or a missing
value (pandas `NaN`/`None`). -/
inductive Value where
  | i (n : Int)
  | s (v : String)
  | na
deriving DecidableEq

/-- Embeds the pandas `DataFrame` held by `DataProcessor.data`: ordered
column names and rows of cells (spec §3 "Table"). -/
structure Table where
  cols : List String
  rows : List (List Value)
deriving DecidableEq

/-- Embeds the `DataProcessor` instance state: its single in-memory
table (`self.data`, src/src/data_processor.py line 18). -/
structure DataProcessor where
  data : Table
deriving DecidableEq

/-- Index of a column name in the column list (model of pandas column
lookup for a present column). -/
def colIdx (c : String) : List String → Nat
  | [] => 0
  | x :: xs => if x = c then 0 else colIdx c xs + 1

/-- Cell of a row at a column index; missing cells read as `na`. -/
def cellAt (r : List Value) (i : Nat) : Value := r.getD i Value.na

/-- Elementwise `==` of a pandas series cell against a scalar: `NaN`
compares unequal to everything, mismatched types compare unequal. -/
def veq : Value → Value → Bool
  | .na, _ => false
  | _, .na => false
  | .i a, .i b => a == b
  | .s a, .s b => a == b
  | .i _, .s _ => false
  | .s _, .i _ => false

/-- Elementwise `>` of a cell against a scalar: `NaN` comparisons are
false, mismatched int/str comparison raises `TypeError`. -/
def vgt : Value → Value → Except String Bool
  | .na, _ => .ok false
  | _, .na => .ok false
  | .i a, .i b => .ok (decide (b < a))
  | .s a, .s b => .ok (decide (b < a))
  | .i _, .s _ => .error "TypeError: not supported between instances of int and str"
  | .s _, .i _ => .error "TypeError: not supported between instances of str and int"

/-- Elementwise `<` of a cell against a scalar, same error model as
`vgt`. -/
def vlt : Value → Value → Except String Bool
  | .na, _ => .ok false
  | _, .na => .ok false
  | .i a, .i b => .ok (decide (a < b))
  | .s a, .s b => .ok (decide (a < b))
  | .i _, .s _ => .error "TypeError: not supported between instances of int and str"
  | .s _, .i _ => .error "TypeError: not supported between instances of str and int"

/-- Keeps the rows whose cell at column index `i` satisfies the
comparison; a comparison error aborts (pandas raises while computing the
boolean mask). -/
def filterRowsE (f : Value → Except String Bool) (i : Nat) :
    List (List Value) → Except String (List (List Value))
  | [] => .ok []
  | r :: rs =>
    match f (cellAt r i) with
    | .error e => .error e
    | .ok b =>
      match filterRowsE f i rs with
      | .error e => .error e
      | .ok ys => .ok (if b then r :: ys else ys)

/-- Embeds one `filtered_data[filtered_data[column] <op> value]` step:
column lookup (`KeyError` when absent) followed by boolean-mask row
selection. -/
def seriesFilter (t : Table) (col : String) (f : Value → Except String Bool) :
    Except String Table :=
  if col ∈ t.cols then
    match filterRowsE f (colIdx col t.cols) t.rows with
    | .error e => .error e
    | .ok rs => .ok ⟨t.cols, rs⟩
  else .error ("KeyError: " ++ col)

/-- Embeds the body of the `for column, operator, value in conditions`
loop of `filter_data` (src/src/data_processor.py lines 64-72): the
`equals` / `greater_than` / `less_than` dispatch, with `ValueError` on
any other operator. -/
def applyCond (t : Table) (col op : String) (v : Value) : Except String Table :=
  if op = "equals" then seriesFilter t col (fun x => .ok (veq x v))
  else if op = "greater_than" then seriesFilter t col (fun x => vgt x v)
  else if op = "less_than" then seriesFilter t col (fun x => vlt x v)
  else .error ("Unsupported operator: " ++ op)

/-- Folds `applyCond` over the condition list in order, starting from a
copy of the stored table, propagating the first raised error. -/
def filterConds : Table → List (String × String × Value) → Except String Table
  | t, [] => .ok t
  | t, (col, op, v) :: rest =>
    match applyCond t col op v with
    | .error e => .error e
    | .ok t2 => filterConds t2 rest

/-- Embeds `DataProcessor.filter_data` (src/src/data_processor.py lines
53-74) as a state transformer: the method reads `self.data`, works on
`self.data.copy()` and never assigns `self.data`, so the embedded method
returns the instance state unchanged next to its returned (or raised)
result. -/
def DataProcessor.filter_data (p : DataProcessor)
    (conds : List (String × String × Value)) : DataProcessor × Except String Table :=
  (p, filterConds p.data conds)

/-- A row with no missing value (the rows `dropna()` keeps). -/
def rowComplete (r : List Value) : Bool := r.all (fun v => decide (v ≠ Value.na))

/-- Embeds `self.data.dropna()`: removes every row containing a missing
value. -/
def dropna (t : Table) : Table := ⟨t.cols, t.rows.filter rowComplete⟩

/-- Keeps the first occurrence of each row, dropping later exact
duplicates (`seen` holds the rows already emitted). -/
def dedupFrom (seen : List (List Value)) : List (List Value) → List (List Value)
  | [] => []
  | r :: rs => if r ∈ seen then dedupFrom seen rs else r :: dedupFrom (r :: seen) rs

/-- Embeds `self.data.drop_duplicates()`: removes exact-duplicate rows,
keeping first occurrences. -/
def drop_duplicates (t : Table) : Table := ⟨t.cols, dedupFrom [] t.rows⟩

/-- Embeds `DataProcessor.clean_data` (src/src/data_processor.py lines
28-31): `dropna` then `drop_duplicates`, written back to `self.data`. -/
def DataProcessor.clean_data (p : DataProcessor) : DataProcessor :=
  ⟨drop_duplicates (dropna p.data)⟩

/-- The statistics dictionary returned by `calculate_statistics`. -/
structure Stats where
  mean : Rat
  median : Rat
  std : Rat
  min : Rat
  max : Rat
deriving DecidableEq

/-- Model of the delegated pandas aggregation functions (`.mean()`,
`.median()`, `.std()`, `.min()`, `.max()`), which the spec declares a
non-goal ("mean/median/etc. are delegated entirely to a numeric
library"): an arbitrary total aggregation suite over a column's values,
valued in an idealised numeric domain. -/
structure StatsLib where
  mean : List Value → Rat
  median : List Value → Rat
  std : List Value → Rat
  min : List Value → Rat
  max : List Value → Rat

/-- The values of the named column, row by row (`self.data[column]`). -/
def columnValues (t : Table) (col : String) : List Value :=
  t.rows.map (fun r => cellAt r (colIdx col t.cols))

/-- Embeds `DataProcessor.calculate_statistics`
(src/src/data_processor.py lines 33-51): `ValueError` when the column is
absent, otherwise the five-aggregate dictionary over the column's
values. -/
def DataProcessor.calculate_statistics (p : DataProcessor) (lib : StatsLib)
    (column : String) : Except String Stats :=
  if column ∉ p.data.cols then
    .error ("Column " ++ column ++ " not found in data")
  else
    .ok ⟨lib.mean (columnValues p.data column),
         lib.median (columnValues p.data column),
         lib.std (columnValues p.data column),
         lib.min (columnValues p.data column),
         lib.max (columnValues p.data column)⟩

/-! ## Tabular processor: supporting lemmas -/

theorem mem_dedupFrom (r : List Value) :
    ∀ (l seen : List (List Value)), r ∈ dedupFrom seen l ↔ r ∈ l ∧ r ∉ seen := by
  intro l
  induction l with
  | nil => intro seen; simp [dedupFrom]
  | cons x xs ih =>
    intro seen
    rw [dedupFrom]
    by_cases hx : x ∈ seen
    · rw [if_pos hx, ih seen]
      constructor
      · rintro ⟨h1, h2⟩
        exact ⟨List.mem_cons_of_mem x h1, h2⟩
      · rintro ⟨h1, h2⟩
        rcases List.mem_cons.mp h1 with rfl | h1
        · exact absurd hx h2
        · exact ⟨h1, h2⟩
    · rw [if_neg hx]
      constructor
      · intro h
        rcases List.mem_cons.mp h with rfl | h
        · exact ⟨List.mem_cons_self r xs, hx⟩
        · obtain ⟨h1, h2⟩ := (ih (x :: seen)).mp h
          exact ⟨List.mem_cons_of_mem x h1,
            fun hs => h2 (List.mem_cons_of_mem x hs)⟩
      · rintro ⟨h1, h2⟩
        rcases List.mem_cons.mp h1 with rfl | h1
        · exact List.mem_cons_self r _
        · by_cases hrx : r = x
          · exact hrx ▸ List.mem_cons_self x _
          · refine List.mem_cons_of_mem x ((ih (x :: seen)).mpr ⟨h1, fun hs => ?_⟩)
            rcases List.mem_cons.mp hs with h | h
            · exact hrx h
            · exact h2 h

theorem nodup_dedupFrom : ∀ (l seen : List (List Value)), (dedupFrom seen l).Nodup := by
  intro l
  induction l with
  | nil => intro seen; simp [dedupFrom]
  | cons x xs ih =>
    intro seen
    rw [dedupFrom]
    by_cases hx : x ∈ seen
    · rw [if_pos hx]; exact ih seen
    · rw [if_neg hx]
      refine List.nodup_cons.mpr ⟨?_, ih (x :: seen)⟩
      intro hmem
      exact (mem_dedupFrom x xs (x :: seen)).mp hmem |>.2 (List.mem_cons_self x seen)

theorem dedupFrom_eq_self : ∀ (seen l : List (List Value)), l.Nodup →
    (∀ a ∈ l, a ∉ seen) → dedupFrom seen l = l := by
  intro seen l
  induction l generalizing seen with
  | nil => intro _ _; rfl
  | cons x xs ih =>
    intro hnd hsn
    have hx : x ∉ seen := hsn x (List.mem_cons_self x xs)
    rw [dedupFrom, if_neg hx]
    congr 1
    refine ih (x :: seen) (List.nodup_cons.mp hnd).2 ?_
    intro a ha hmem
    rcases List.mem_cons.mp hmem with h | h
    · exact (List.nodup_cons.mp hnd).1 (h ▸ ha)
    · exact hsn a (List.mem_cons_of_mem _ ha) h

theorem dedupFrom_idem (l : List (List Value)) :
    dedupFrom [] (dedupFrom [] l) = dedupFrom [] l :=
  dedupFrom_eq_self [] _ (nodup_dedupFrom l []) (by simp)

theorem filter_dedupFrom (p : List Value → Bool) (l : List (List Value))
    (h : ∀ a ∈ l, p a = true) : (dedupFrom [] l).filter p = dedupFrom [] l :=
  List.filter_eq_self.mpr (fun a ha => h a ((mem_dedupFrom a l []).mp ha).1)

theorem seriesFilter_cols {t t2 : Table} {col : String}
    {f : Value → Except String Bool} (h : seriesFilter t col f = .ok t2) :
    t2.cols = t.cols := by
  unfold seriesFilter at h
  split at h
  · split at h
    · exact absurd h (by simp)
    · injection h with h2
      rw [← h2]
  · exact absurd h (by simp)

theorem applyCond_cols {t t2 : Table} {col op : String} {v : Value}
    (h : applyCond t col op v = .ok t2) : t2.cols = t.cols := by
  unfold applyCond at h
  split_ifs at h
  · exact seriesFilter_cols h
  · exact seriesFilter_cols h
  · exact seriesFilter_cols h

theorem filterConds_cols : ∀ (conds : List (String × String × Value)) (t t2 : Table),
    filterConds t conds = .ok t2 → t2.cols = t.cols := by
  intro conds
  induction conds with
  | nil =>
    intro t t2 h
    rw [filterConds] at h
    injection h with h2
    rw [← h2]
  | cons c rest ih =>
    intro t t2 h
    obtain ⟨col, op, v⟩ := c
    rw [filterConds] at h
    split at h
    · exact absurd h (by simp)
    · next t1 hstep => exact (ih _ _ h).trans (applyCond_cols hstep)

/-! ## Claims C4-C8 -/

/-- C4: for every table `T` held by the processor, `filter_data` with an
empty condition list returns (a copy of) `T` itself: the identity law
for the empty condition list. -/
theorem filter_data_empty_identity (p : DataProcessor) :
    (p.filter_data []).2 = Except.ok p.data := rfl

/-- C5: `clean_data` is idempotent: cleaning twice yields the same table
as cleaning once. -/
theorem clean_data_idempotent (p : DataProcessor) :
    p.clean_data.clean_data = p.clean_data := by
  unfold DataProcessor.clean_data drop_duplicates dropna
  simp only [DataProcessor.mk.injEq, Table.mk.injEq]
  refine ⟨trivial, ?_⟩
  rw [filter_dedupFrom rowComplete _ (fun a ha => List.of_mem_filter ha)]
  exact dedupFrom_idem _

/-- C6: `filter_data` never mutates the processor's stored table: the
post-state equals the pre-state for every condition list, including
lists whose evaluation raises (unsupported operator, missing column, or
a comparison `TypeError` partway through), and the returned table is
computed from a copy of the stored one (`self.data.copy()`), so the
stored table and the result are separate values. -/
theorem filter_data_no_mutation (p : DataProcessor)
    (conds : List (String × String × Value)) :
    (p.filter_data conds).1 = p ∧
      (p.filter_data conds).2 = filterConds p.data conds :=
  ⟨rfl, rfl⟩

/-- C7: both `filter_data` (on any accepted condition list) and
`clean_data` preserve the column set, names and order: only rows are
removed. -/
theorem filter_clean_columns_stable :
    (∀ (p : DataProcessor) (conds : List (String × String × Value)) (t2 : Table),
        (p.filter_data conds).2 = .ok t2 → t2.cols = p.data.cols) ∧
      (∀ p : DataProcessor, p.clean_data.data.cols = p.data.cols) :=
  ⟨fun _ conds _ h => filterConds_cols conds _ _ h, fun _ => rfl⟩

/-- Witness for C7 at a concrete table and condition list. -/
theorem filter_clean_columns_stable_witness :
    (⟨["a", "b"], [[Value.i 3, Value.i 0]]⟩ : Table).cols =
      (DataProcessor.mk ⟨["a", "b"], [[Value.i 3, Value.i 0], [Value.i 1, Value.i 2]]⟩).data.cols :=
  filter_clean_columns_stable.1
    (DataProcessor.mk ⟨["a", "b"], [[Value.i 3, Value.i 0], [Value.i 1, Value.i 2]]⟩)
    [("a", "greater_than", Value.i 2)]
    ⟨["a", "b"], [[Value.i 3, Value.i 0]]⟩
    (by rfl)

/-- C8: `calculate_statistics` raises the invalid-input `ValueError`
naming the column exactly when the column is absent (and nothing else:
the guard runs before any aggregation), and on a present column returns
the `{mean, median, std, min, max}` dictionary over that column's
values, for every aggregation suite of the delegated numeric library. -/
theorem calculate_statistics_guard (lib : StatsLib) (p : DataProcessor)
    (column : String) :
    (column ∉ p.data.cols →
        p.calculate_statistics lib column =
          .error ("Column " ++ column ++ " not found in data")) ∧
      (column ∈ p.data.cols →
        p.calculate_statistics lib column =
          .ok ⟨lib.mean (columnValues p.data column),
               lib.median (columnValues p.data column),
               lib.std (columnValues p.data column),
               lib.min (columnValues p.data column),
               lib.max (columnValues p.data column)⟩) := by
  constructor
  · intro h; simp [DataProcessor.calculate_statistics, h]
  · intro h; simp [DataProcessor.calculate_statistics, h]

/-- Witness for C8: a concrete missing column raises the `ValueError`
and a concrete present column returns the dictionary. -/
theorem calculate_statistics_guard_witness :
    (DataProcessor.mk ⟨["v"], [[Value.i 10]]⟩).calculate_statistics
        ⟨fun _ => 0, fun _ => 0, fun _ => 0, fun _ => 0, fun _ => 0⟩ "w" =
      .error "Column w not found in data" :=
  (calculate_statistics_guard
      ⟨fun _ => 0, fun _ => 0, fun _ => 0, fun _ => 0, fun _ => 0⟩
      (DataProcessor.mk ⟨["v"], [[Value.i 10]]⟩) "w").1 (by decide)

/-! ## Documentation validator: YAML data model -/

mutual
/-- A parsed YAML value, the result of `yaml.safe_load(mkdocs.yml)`:
scalars, sequences and mappings (spec §3 "Navigation Manifest" sits
inside such a value under the `nav` key). -/
inductive Yaml where
  | str (s : String)
  | int (n : Int)
  | bool (b : Bool)
  | null
  | list (items : YSeq)
  | dict (entries : YMap)

/-- A YAML sequence (Python `list`). -/
inductive YSeq where
  | nil
  | cons (hd : Yaml) (tl : YSeq)

/-- A YAML mapping (Python `dict`), as its ordered key/value pairs. -/
inductive YMap where
  | nil
  | cons (k v : Yaml) (tl : YMap)
end

/-- Builds a `YSeq` from a Lean list (used for concrete instances). -/
def yseq : List Yaml → YSeq
  | [] => .nil
  | x :: xs => .cons x (yseq xs)

/-- Builds a `YMap` from a Lean association list. -/
def ymap : List (Yaml × Yaml) → YMap
  | [] => .nil
  | (k, v) :: xs => .cons k v (ymap xs)

mutual
/-- Python `repr()` of a YAML value (used inside `str()` of containers). -/
def yamlRepr : Yaml → String
  | .str s => "\x27" ++ s ++ "\x27"
  | .int n => toString n
  | .bool b => if b then "True" else "False"
  | .null => "None"
  | .list items => "[" ++ yamlReprSeq items ++ "]"
  | .dict entries => "\x7b" ++ yamlReprMap entries ++ "\x7d"

/-- Comma-separated `repr()`s of a sequence's elements. -/
def yamlReprSeq : YSeq → String
  | .nil => ""
  | .cons x .nil => yamlRepr x
  | .cons x rest => yamlRepr x ++ ", " ++ yamlReprSeq rest

/-- Comma-separated `repr()`s of a mapping's entries. -/
def yamlReprMap : YMap → String
  | .nil => ""
  | .cons k v .nil => yamlRepr k ++ ": " ++ yamlRepr v
  | .cons k v rest => yamlRepr k ++ ": " ++ yamlRepr v ++ ", " ++ yamlReprMap rest
end

/-- Python `str()` of a YAML value (f-string interpolation). -/
def yamlStr : Yaml → String
  | .str s => s
  | y => yamlRepr y

/-- The sequence of one-character strings Python iteration over a string
yields. -/
def charSeq : List Char → YSeq
  | [] => .nil
  | c :: cs => .cons (.str (String.mk [c])) (charSeq cs)

/-- The key sequence Python iteration over a dict yields. -/
def keysOf : YMap → YSeq
  | .nil => .nil
  | .cons k _ rest => .cons k (keysOf rest)

/-- Model of Python `for x in obj`: lists iterate their items, strings
their characters, dicts their keys; other values raise `TypeError`. -/
def yamlIter : Yaml → Except String YSeq
  | .list items => .ok items
  | .str s => .ok (charSeq s.toList)
  | .dict entries => .ok (keysOf entries)
  | .int _ => .error "TypeError: int object is not iterable"
  | .bool _ => .error "TypeError: bool object is not iterable"
  | .null => .error "TypeError: NoneType object is not iterable"

/-- Looks up a string key in a mapping, later duplicate keys overriding
earlier ones as in `yaml.safe_load`. -/
def lookupYKey (key : String) : YMap → Option Yaml
  | .nil => none
  | .cons k v rest =>
    match lookupYKey key rest with
    | some r => some r
    | none =>
      match k with
      | .str s => if s = key then some v else none
      | _ => none

/-- Embeds `config.get('nav', [])`: an `AttributeError` when the loaded
configuration is not a mapping, otherwise the value under `nav`
defaulting to the empty list. -/
def configNav : Yaml → Except String Yaml
  | .dict entries => .ok ((lookupYKey "nav" entries).getD (.list .nil))
  | _ => .error "AttributeError: object has no attribute get"

/-- Embeds `pathlib` `/`-joining of a directory and a relative path
string (an absolute right operand wins, an empty one is a no-op). -/
def joinPath (base p : String) : String :=
  if p = "" then base
  else if p.toList.head? = some '/' then p
  else base ++ "/" ++ p

/-- Embeds `self.docs_dir / path` for a raw YAML leaf value: joining a
`Path` with a non-string raises `TypeError`. -/
def pathJoinY (base : String) : Yaml → Except String String
  | .str p => .ok (joinPath base p)
  | _ => .error "TypeError: unsupported operand type for /"

/-! ## Documentation validator: environment -/

/-- Models everything `DocsValidator` reads from the outside world: the
documentation directory name, the outcome of loading `mkdocs.yml`, the
markdown files `docs_dir.rglob("*.md")` yields (path and content, in
traversal order), the set of existing filesystem paths, and the
delegated library calls — `(md_file.parent / link).resolve()` path
resolution, `markdown.markdown` + `BeautifulSoup` rendering, the
`compile(...)` Python syntax check, and `Path.read_text`. -/
structure Env where
  docsDir : String
  mkdocs : Except String Yaml
  mdFiles : List (String × String)
  fsPaths : List String
  resolve : String → String → String
  render : String → Except String Unit
  pyCompile : String → Except String Unit
  fileText : String → String

/-- The validation report owned by a `DocsValidator` instance: its
`errors` and `warnings` lists (src/scripts/test_docs.py lines 32-33). -/
structure VState where
  errors : List String
  warnings : List String
deriving DecidableEq

/-- The contribution of one check: the error strings and warning strings
it appends, and its boolean result or the exception it raises. -/
abbrev CheckOut := List String × List String × Except String Bool

/-- A validator check, embedded as a pure function of the environment. -/
abbrev Check := Env → CheckOut

/-- Runs an error-producing body over a list (the `for` loops of the
checks), concatenating appended errors in order and and-ing the per-item
success flags. -/
def sweep (g : α → List String × Bool) : List α → List String × Bool
  | [] => ([], true)
  | x :: xs =>
    let (e, b) := g x
    let (e2, b2) := sweep g xs
    (e ++ e2, b && b2)

/-- Like `sweep` but with warnings as well (for `validate_markdown`). -/
def sweep3 (g : α → List String × List String × Bool) :
    List α → List String × List String × Bool
  | [] => ([], [], true)
  | x :: xs =>
    let (e, w, b) := g x
    let (e2, w2, b2) := sweep3 g xs
    (e ++ e2, w ++ w2, b && b2)

/-! ## Documentation validator: markdown scanners -/

/-- The backquote character delimiting fenced code blocks. -/
def tick : Char := Char.ofNat 96

/-- Python `\s` on the characters a markdown file contains. -/
def pySpace (c : Char) : Bool :=
  c == ' ' || c == '\t' || c == '\n' || c == '\r' || c == '\x0b' || c == '\x0c'

/-- Python `\w`: alphanumeric or underscore. -/
def isWordChar (c : Char) : Bool := c.isAlphanum || c == '_'

/-- Splits a character stream at newlines (the lines `re.MULTILINE`
anchors see). -/
def splitLines : List Char → List (List Char)
  | [] => [[]]
  | c :: rest =>
    match splitLines rest with
    | [] => [[c]]
    | l :: ls => if c = '\n' then [] :: l :: ls else (c :: l) :: ls

/-- Matches one line against the heading pattern
`^(#{1,6})\s+(.+)$` of `validate_markdown`: one to six hashes, at
least one whitespace character, then a nonempty greedy title; when the
title would be empty the regex backtracks one whitespace character into
the title. -/
def matchHeading (line : List Char) : Option (Nat × String) :=
  let hashes := line.takeWhile (fun c => c == '#')
  let h := hashes.length
  if 1 ≤ h ∧ h ≤ 6 then
    let rest := line.drop h
    let ws := rest.takeWhile pySpace
    let title := rest.drop ws.length
    if ws.length = 0 then none
    else if ¬ title.isEmpty then some (h, String.mk title)
    else if 2 ≤ ws.length then some (h, String.mk (ws.drop (ws.length - 1)))
    else none
  else none

/-- The headings `re.findall(r'^(#{1,6})\s+(.+)$', content, re.MULTILINE)`
extracts, as (level, title) pairs. -/
def extractHeads (content : String) : List (Nat × String) :=
  (splitLines content.toList).filterMap matchHeading

/-- Embeds the heading-hierarchy loop of `validate_markdown`
(src/scripts/test_docs.py lines 274-283): walks the headings carrying
`current_level` (initially 0) and emits one warning per heading whose
level exceeds the previous one by more than 1. -/
def headingWarns (file : String) : Nat → List (Nat × String) → List String
  | _, [] => []
  | cur, (lvl, title) :: rest =>
    (if cur + 1 < lvl then ["Skipped heading level in " ++ file ++ ": " ++ title] else [])
      ++ headingWarns file lvl rest

/-- One attempted match of the tail of the internal-link pattern
`\[([^\]]+)\]\(([^)]+)\)` after an opening bracket: nonempty text up to
the first `]`, then `](`, nonempty target up to the first `)`, then `)`;
returns the captures and the remainder of the stream. -/
def tryLink (l : List Char) : Option (String × String × List Char) :=
  let text := l.takeWhile (fun c => c != ']')
  if text.isEmpty then none
  else
    match l.drop text.length with
    | c1 :: c2 :: r2 =>
      if c1 == ']' && c2 == '(' then
        let url := r2.takeWhile (fun c => c != ')')
        if url.isEmpty then none
        else
          match r2.drop url.length with
          | c3 :: rem => if c3 == ')' then some (String.mk text, String.mk url, rem) else none
          | [] => none
      else none
    | _ => none

theorem tryLink_length {l : List Char} {t u : String} {rem : List Char}
    (h : tryLink l = some (t, u, rem)) : rem.length < l.length := by
  unfold tryLink at h
  simp only [] at h
  split at h
  · exact absurd h (by simp)
  · split at h
    · next c1 c2 r2 heq =>
      have hr2 : r2.length + 2 ≤ l.length := by
        have h5 := congrArg List.length heq
        simp only [List.length_drop, List.length_cons] at h5
        omega
      split at h
      · split at h
        · exact absurd h (by simp)
        · split at h
          · next c3 rem2 heq2 =>
            have hrem : rem2.length + 1 ≤ r2.length := by
              have h5 := congrArg List.length heq2
              simp only [List.length_drop, List.length_cons] at h5
              omega
            split at h
            · simp only [Option.some.injEq, Prod.mk.injEq] at h
              obtain ⟨h2, h3, h4⟩ := h
              subst h4
              omega
            · exact absurd h (by simp)
          · exact absurd h (by simp)
      · exact absurd h (by simp)
    · exact absurd h (by simp)

/-- Embeds `re.findall(r'\[([^\]]+)\]\(([^)]+)\)', content)`: a
left-to-right, non-overlapping scan that attempts the pattern at every
opening bracket and resumes after each match. -/
def findLinks : List Char → List (String × String)
  | [] => []
  | c :: rest =>
    if c = '[' then
      match h : tryLink rest with
      | some (t, u, rem) => (t, u) :: findLinks rem
      | none => findLinks rest
    else findLinks rest
termination_by l => l.length
decreasing_by
  all_goals simp only [List.length_cons]
  all_goals first
    | (have h2 := tryLink_length h; omega)
    | omega

/-- One attempted match of the tail of the image pattern
`!\[([^\]]*)\]\(([^)]+)\)` after `![`: possibly-empty alt text, then
`](`, nonempty path, then `)`. -/
def tryImage (l : List Char) : Option (String × String × List Char) :=
  let alt := l.takeWhile (fun c => c != ']')
  match l.drop alt.length with
  | c1 :: c2 :: r2 =>
    if c1 == ']' && c2 == '(' then
      let url := r2.takeWhile (fun c => c != ')')
      if url.isEmpty then none
      else
        match r2.drop url.length with
        | c3 :: rem => if c3 == ')' then some (String.mk alt, String.mk url, rem) else none
        | [] => none
    else none
  | _ => none

theorem tryImage_length {l : List Char} {t u : String} {rem : List Char}
    (h : tryImage l = some (t, u, rem)) : rem.length < l.length := by
  unfold tryImage at h
  simp only [] at h
  split at h
  · next c1 c2 r2 heq =>
    have hr2 : r2.length + 2 ≤ l.length := by
      have h5 := congrArg List.length heq
      simp only [List.length_drop, List.length_cons] at h5
      omega
    split at h
    · split at h
      · exact absurd h (by simp)
      · split at h
        · next c3 rem2 heq2 =>
          have hrem : rem2.length + 1 ≤ r2.length := by
            have h5 := congrArg List.length heq2
            simp only [List.length_drop, List.length_cons] at h5
            omega
          split at h
          · simp only [Option.some.injEq, Prod.mk.injEq] at h
            obtain ⟨h2, h3, h4⟩ := h
            subst h4
            omega
          · exact absurd h (by simp)
        · exact absurd h (by simp)
    · exact absurd h (by simp)
  · exact absurd h (by simp)

/-- Embeds `re.findall(r'!\[([^\]]*)\]\(([^)]+)\)', content)`: scans for
`![`, attempts the pattern, resumes after each match. -/
def findImages : List Char → List (String × String)
  | [] => []
  | c :: rest =>
    if c = '!' then
      match rest with
      | '[' :: r2 =>
        match h : tryImage r2 with
        | some (a, u, rem) => (a, u) :: findImages rem
        | none => findImages ('[' :: r2)
      | other => findImages other
    else findImages rest
termination_by l => l.length
decreasing_by
  all_goals simp only [List.length_cons]
  all_goals first
    | (have h2 := tryImage_length h; omega)
    | omega

/-- True when the stream starts with three backquotes. -/
def startsFence : List Char → Bool
  | c1 :: c2 :: c3 :: _ => c1 == tick && c2 == tick && c3 == tick
  | _ => false

/-- Splits a stream at the first `\n`-backquote-backquote-backquote
closing fence (the non-greedy `(.*?)\n` ++ fence of the code-block
pattern): returns the consumed body and the remainder after the fence. -/
def fenceSplit : List Char → Option (List Char × List Char)
  | [] => none
  | c :: rest =>
    if c = '\n' && startsFence rest then some ([], rest.drop 3)
    else
      match fenceSplit rest with
      | some (a, b) => some (c :: a, b)
      | none => none

theorem startsFence_length {l : List Char} (h : startsFence l = true) : 3 ≤ l.length := by
  unfold startsFence at h
  split at h
  · simp
  · exact absurd h (by simp)

theorem fenceSplit_length : ∀ {l a b : List Char},
    fenceSplit l = some (a, b) → b.length + 4 ≤ l.length := by
  intro l
  induction l with
  | nil => intro a b h; exact absurd h (by simp [fenceSplit])
  | cons c rest ih =>
    intro a b h
    rw [fenceSplit] at h
    split at h
    · next hc =>
      simp only [Option.some.injEq, Prod.mk.injEq] at h
      obtain ⟨h1, h2⟩ := h
      subst h2
      have hc2 : startsFence rest = true := by
        simp only [Bool.and_eq_true] at hc
        exact hc.2
      have h4 := startsFence_length hc2
      simp only [List.length_drop, List.length_cons]
      omega
    · split at h
      · next a2 b2 heq =>
        simp only [Option.some.injEq, Prod.mk.injEq] at h
        obtain ⟨h1, h2⟩ := h
        subst h2
        have h3 := ih heq
        simp only [List.length_cons]
        omega
      · exact absurd h (by simp)

/-- One attempted match of the tail of the code-block pattern after an
opening fence: the optional `(\w+)?` language word, the mandatory
newline, and the shortest body closed by a fence; `rest` is the stream
after the first backquote of the opening fence. -/
def fenceBody (rest : List Char) : Option (Option String × String × List Char) :=
  let after := rest.drop 2
  let lang := after.takeWhile isWordChar
  match after.drop lang.length with
  | '\n' :: body =>
    match fenceSplit body with
    | some (code, rem) =>
      some (if lang.isEmpty then none else some (String.mk lang), String.mk code, rem)
    | none => none
  | _ => none

theorem fenceBody_length {rest : List Char} {lg : Option String} {code : String}
    {rem : List Char} (h : fenceBody rest = some (lg, code, rem)) :
    rem.length < rest.length := by
  unfold fenceBody at h
  simp only [] at h
  split at h
  · next body heq =>
    have hbody : body.length + 1 ≤ rest.length := by
      have h5 := congrArg List.length heq
      simp only [List.length_drop, List.length_cons] at h5
      omega
    split at h
    · next code2 rem2 heq2 =>
      have h6 := fenceSplit_length heq2
      simp only [Option.some.injEq, Prod.mk.injEq] at h
      obtain ⟨h1, h2, h3⟩ := h
      subst h3
      omega
    · exact absurd h (by simp)
  · exact absurd h (by simp)

/-- Embeds `re.finditer(r'```(\w+)?\n(.*?)\n```', content, re.DOTALL)`:
at each opening fence reads the optional language word, requires a
newline, and takes the shortest body closed by a fence; yields
(language?, body) pairs, scanning non-overlapping matches left to
right. -/
def findCodeBlocks : List Char → List (Option String × String)
  | [] => []
  | c :: rest =>
    if c == tick && startsFence (c :: rest) then
      match h : fenceBody rest with
      | some (lg, code, rem) => (lg, code) :: findCodeBlocks rem
      | none => findCodeBlocks rest
    else findCodeBlocks rest
termination_by l => l.length
decreasing_by
  all_goals simp only [List.length_cons]
  all_goals first
    | (have h2 := fenceBody_length h; omega)
    | omega

/-! ## Documentation validator: the seven checks -/

/-- Sequences two error-collecting, possibly-raising steps of a `for`
loop that accumulates `success &= ...`: a raised exception aborts the
loop keeping the errors appended so far, otherwise the errors
concatenate and the flags conjoin. -/
def seqW (p q : List String × Except String Bool) : List String × Except String Bool :=
  match p with
  | (es, .error e) => (es, .error e)
  | (es, .ok b) => (es ++ q.1, q.2.map (fun b2 => b && b2))

/-- The `else` (leaf) arm of `check_nav_items` for one value: joins it
to the documentation root (`TypeError` propagates for a non-string) and
reports a `Missing file:` error counting as failure when the joined path
does not exist. -/
def navLeafCheck (env : Env) (v : Yaml) : List String × Except String Bool :=
  match pathJoinY env.docsDir v with
  | .error e => ([], .error e)
  | .ok fp =>
    if env.fsPaths.contains fp then ([], .ok true)
    else (["Missing file: " ++ fp], .ok false)

mutual
/-- Embeds the inner `check_nav_items` function of
`DocsValidator.check_files_exist` (src/scripts/test_docs.py lines
71-83): walks the item sequence in order; a non-dict item contributes
nothing (it is skipped), a dict item contributes its entry walk. -/
def check_nav_items (env : Env) : YSeq → List String × Except String Bool
  | .nil => ([], .ok true)
  | .cons item rest => seqW (navItemWalk env item) (check_nav_items env rest)

/-- The contribution of a single nav item: dict items walk their
values, any other item is skipped (`isinstance(item, dict)` fails). -/
def navItemWalk (env : Env) : Yaml → List String × Except String Bool
  | .dict entries => navEntryWalk env entries
  | _ => ([], .ok true)

/-- Embeds the `for _, path in item.items()` loop of `check_nav_items`:
a list value recurses into `check_nav_items`, any other value is checked
as a leaf path. -/
def navEntryWalk (env : Env) : YMap → List String × Except String Bool
  | .nil => ([], .ok true)
  | .cons _ (.list children) rest =>
    seqW (check_nav_items env children) (navEntryWalk env rest)
  | .cons _ v rest => seqW (navLeafCheck env v) (navEntryWalk env rest)
end

/-- Embeds `DocsValidator.check_files_exist` (src/scripts/test_docs.py
lines 62-85): loads the manifest, reads `config.get('nav', [])` and
walks it with `check_nav_items`; exceptions (unreadable manifest,
non-mapping configuration, non-iterable nav, non-string leaf) escape to
`validate_all`. -/
def check_files_exist (env : Env) : CheckOut :=
  match env.mkdocs with
  | .error e => ([], [], .error e)
  | .ok cfg =>
    match configNav cfg with
    | .error e => ([], [], .error e)
    | .ok nav =>
      match yamlIter nav with
      | .error e => ([], [], .error e)
      | .ok items =>
        let p := check_nav_items env items
        (p.1, [], p.2)

/-- True when the link target is an absolute URL
(`link.startswith(('http://', 'https://'))`). -/
def isHttpUrl (link : String) : Bool :=
  "http://".toList.isPrefixOf link.toList || "https://".toList.isPrefixOf link.toList

/-- Embeds `DocsValidator.validate_internal_links`
(src/scripts/test_docs.py lines 87-110): for every markdown file and
every extracted link that is not an absolute URL, strips the fragment,
skips empty (fragment-only) targets, resolves the rest against the
file's directory and reports a broken-link error when the target does
not exist. -/
def validate_internal_links (env : Env) : CheckOut :=
  let perFile := fun (fc : String × String) =>
    sweep (fun (tl : String × String) =>
      let link := tl.2
      if isHttpUrl link then ([], true)
      else
        let l2 := String.mk (link.toList.takeWhile (fun c => c != '#'))
        if l2 = "" then ([], true)
        else if env.fsPaths.contains (env.resolve fc.1 l2) then ([], true)
        else (["Broken internal link in " ++ fc.1 ++ ": " ++ l2], false))
      (findLinks fc.2.toList)
  let p := sweep perFile env.mdFiles
  (p.1, [], .ok p.2)

/-- Embeds `DocsValidator.validate_code_blocks` (src/scripts/test_docs.py
lines 146-173): every fenced block tagged `python` is given to the
Python parser; a syntax error is reported with the file and message. -/
def validate_code_blocks (env : Env) : CheckOut :=
  let perFile := fun (fc : String × String) =>
    sweep (fun (blk : Option String × String) =>
      if blk.1 = some "python" then
        match env.pyCompile blk.2 with
        | .ok _ => ([], true)
        | .error e => (["Invalid Python syntax in " ++ fc.1 ++ ": " ++ e], false)
      else ([], true))
      (findCodeBlocks fc.2.toList)
  let p := sweep perFile env.mdFiles
  (p.1, [], .ok p.2)

/-- Substring containment of `needle` in `hay` (Python `in`). -/
def containsSub (needle : List Char) : List Char → Bool
  | [] => needle.isEmpty
  | c :: rest => needle.isPrefixOf (c :: rest) || containsSub needle rest

/-- Lowercases both strings and tests Python substring containment
(`section.lower() in content.lower()`). -/
def containsLower (hay needle : String) : Bool :=
  containsSub (needle.toList.map Char.toLower) (hay.toList.map Char.toLower)

/-- Embeds `DocsValidator.validate_api_docs` (src/scripts/test_docs.py
lines 175-210): requires `docs/api` and `docs/api/data_processor.md` to
exist (each missing one reports an error and returns early), then
requires the three section headers as case-insensitive substrings. -/
def validate_api_docs (env : Env) : CheckOut :=
  let apiDir := joinPath env.docsDir "api"
  if !env.fsPaths.contains apiDir then
    (["Missing API documentation directory"], [], .ok false)
  else
    let processorDoc := joinPath apiDir "data_processor.md"
    if !env.fsPaths.contains processorDoc then
      (["Missing DataProcessor API documentation"], [], .ok false)
    else
      let content := env.fileText processorDoc
      let p := sweep (fun sect =>
        if containsLower content sect then ([], true)
        else (["Missing section in API docs: " ++ sect], false))
        ["Class Documentation", "Methods", "Examples"]
      (p.1, [], .ok p.2)

/-- Sequences two error-collecting steps of a non-raising loop:
concatenated errors, conjoined success flags. -/
def pairSeq (p q : List String × Bool) : List String × Bool :=
  (p.1 ++ q.1, p.2 && q.2)

/-- The `if not isinstance(title, str)` test of `validate_nav_item`: a
non-string title reports an invalid-title error and fails. -/
def titleCheck (title : Yaml) : List String × Bool :=
  match title with
  | .str _ => ([], true)
  | _ => (["Invalid navigation title: " ++ yamlStr title], false)

mutual
/-- Embeds the inner `validate_nav_item` function of
`DocsValidator.validate_navigation` (src/scripts/test_docs.py lines
223-235): non-dict items validate trivially, dict items walk their
entries. -/
def validate_nav_item : Yaml → List String × Bool
  | .dict entries => navTitleWalk entries
  | _ => ([], true)

/-- Embeds the `for title, content in item.items()` loop: the title
test, then the content check, then the remaining entries. -/
def navTitleWalk : YMap → List String × Bool
  | .nil => ([], true)
  | .cons title content rest =>
    pairSeq (titleCheck title) (pairSeq (contentCheck content) (navTitleWalk rest))

/-- The `if isinstance(content, list)` arm: a list value folds
`validate_nav_item` over its children, anything else contributes
nothing. -/
def contentCheck : Yaml → List String × Bool
  | .list children => childFold children
  | _ => ([], true)

/-- The `for child in content: success &= validate_nav_item(child)`
fold, which does not short-circuit. -/
def childFold : YSeq → List String × Bool
  | .nil => ([], true)
  | .cons child rest => pairSeq (validate_nav_item child) (childFold rest)
end

/-- Embeds `all(validate_nav_item(item) for item in nav)`: Python `all`
over a generator short-circuits at the first failing item, so items
after it are not validated. -/
def navAllSC : YSeq → List String × Bool
  | .nil => ([], true)
  | .cons item rest =>
    let (es, b) := validate_nav_item item
    if b then
      let (es2, b2) := navAllSC rest
      (es ++ es2, b2)
    else (es, false)

/-- Embeds `DocsValidator.validate_navigation` (src/scripts/test_docs.py
lines 212-237): loads the manifest and validates each nav item's titles
recursively; manifest-loading exceptions escape to `validate_all`. -/
def validate_navigation (env : Env) : CheckOut :=
  match env.mkdocs with
  | .error e => ([], [], .error e)
  | .ok cfg =>
    match configNav cfg with
    | .error e => ([], [], .error e)
    | .ok nav =>
      match yamlIter nav with
      | .error e => ([], [], .error e)
      | .ok items =>
        let p := navAllSC items
        (p.1, [], .ok p.2)

/-- Embeds `DocsValidator.check_image_references`
(src/scripts/test_docs.py lines 239-260): every non-URL image reference
is resolved against the file's directory and reported when missing. -/
def check_image_references (env : Env) : CheckOut :=
  let perFile := fun (fc : String × String) =>
    sweep (fun (ai : String × String) =>
      let ipath := ai.2
      if isHttpUrl ipath then ([], true)
      else if env.fsPaths.contains (env.resolve fc.1 ipath) then ([], true)
      else (["Missing image in " ++ fc.1 ++ ": " ++ ipath], false))
      (findImages fc.2.toList)
  let p := sweep perFile env.mdFiles
  (p.1, [], .ok p.2)

/-- Embeds `DocsValidator.validate_markdown` (src/scripts/test_docs.py
lines 262-293): per file, walks the heading hierarchy emitting
skipped-level warnings, then attempts the markdown-to-HTML render and
reports a rendering exception as an error. -/
def validate_markdown (env : Env) : CheckOut :=
  let perFile := fun (fc : String × String) =>
    let ws := headingWarns fc.1 0 (extractHeads fc.2)
    match env.render fc.2 with
    | .ok _ => (([] : List String), ws, true)
    | .error e => (["Invalid markdown in " ++ fc.1 ++ ": " ++ e], ws, false)
  let p := sweep3 perFile env.mdFiles
  (p.1, p.2.1, .ok p.2.2)

/-! ## Documentation validator: orchestration -/

/-- The seven checks of `validate_all`, named and in source order
(src/scripts/test_docs.py lines 41-49). -/
def checksList : List (String × Check) :=
  [("check_files_exist", check_files_exist),
   ("validate_internal_links", validate_internal_links),
   ("validate_code_blocks", validate_code_blocks),
   ("validate_api_docs", validate_api_docs),
   ("validate_navigation", validate_navigation),
   ("check_image_references", check_image_references),
   ("validate_markdown", validate_markdown)]

/-- Embeds the `for check in checks` loop of
`DocsValidator.validate_all` (src/scripts/test_docs.py lines 51-60):
appends each check's errors and warnings to the running report, converts
a raised exception into an `Error in <check>: <message>` report entry,
and accumulates the conjunction of the success flags; every check in the
list runs. -/
def runChecks (env : Env) : List (String × Check) → VState → Bool → VState × Bool
  | [], s, succ => (s, succ)
  | (n, c) :: rest, s, succ =>
    match c env with
    | (es, ws, .ok b) =>
      runChecks env rest ⟨s.errors ++ es, s.warnings ++ ws⟩ (succ && b)
    | (es, ws, .error e) =>
      runChecks env rest
        ⟨s.errors ++ es ++ ["Error in " ++ n ++ ": " ++ e], s.warnings ++ ws⟩ false

/-- The report state of a freshly constructed `DocsValidator`
(src/scripts/test_docs.py lines 32-33): both lists empty. -/
def initValidator : VState := ⟨[], []⟩

/-- Embeds `DocsValidator.validate_all` (src/scripts/test_docs.py lines
35-60) as a function of the instance's current report state: note the
method does not clear `self.errors` / `self.warnings` before running. -/
def validate_all (env : Env) (s : VState) : VState × Bool :=
  runChecks env checksList s true

/-- Embeds `main` (src/scripts/test_docs.py lines 319-324): a fresh
validator, `validate_all`, and the process exit status
`sys.exit(0 if success else 1)`. -/
def DocsValidator.main (env : Env) : Nat :=
  if (validate_all env initValidator).2 then 0 else 1

/-! ## Validator lemmas: error/success coherence of the checks -/

/-- An error-collecting loop result is coherent when it succeeds exactly
if it appended no error. -/
def PairCoh (p : List String × Bool) : Prop := p.2 = true ↔ p.1 = []

/-- A possibly-raising loop result is coherent when every returned (not
raised) flag is true exactly if no error was appended. -/
def WalkCoh (p : List String × Except String Bool) : Prop :=
  ∀ b, p.2 = Except.ok b → (b = true ↔ p.1 = [])

theorem pairCoh_trivial : PairCoh ([], true) := by simp [PairCoh]

theorem walkCoh_trivial : WalkCoh ([], Except.ok true) := by
  intro b hb
  injection hb with hb
  simp [← hb]

theorem pairSeq_coh {p q : List String × Bool} (hp : PairCoh p) (hq : PairCoh q) :
    PairCoh (pairSeq p q) := by
  unfold PairCoh pairSeq at *
  simp only [Bool.and_eq_true, List.append_eq_nil]
  exact and_congr hp hq

theorem sweep_coh {α : Type} (g : α → List String × Bool) :
    ∀ (l : List α), (∀ x ∈ l, PairCoh (g x)) → PairCoh (sweep g l) := by
  intro l
  induction l with
  | nil => intro _; simp [sweep, PairCoh]
  | cons x xs ih =>
    intro h
    have hx := h x (List.mem_cons_self x xs)
    have hxs := ih (fun y hy => h y (List.mem_cons_of_mem _ hy))
    rw [sweep]
    rcases hgx : g x with ⟨e, b⟩
    rcases hsw : sweep g xs with ⟨e2, b2⟩
    rw [hgx] at hx
    rw [hsw] at hxs
    unfold PairCoh at *
    simp only [Bool.and_eq_true, List.append_eq_nil]
    exact and_congr hx hxs

/-- Coherence for `sweep3` results, on the error and success parts. -/
def TripleCoh (p : List String × List String × Bool) : Prop :=
  p.2.2 = true ↔ p.1 = []

theorem sweep3_coh {α : Type} (g : α → List String × List String × Bool) :
    ∀ (l : List α), (∀ x ∈ l, TripleCoh (g x)) → TripleCoh (sweep3 g l) := by
  intro l
  induction l with
  | nil => intro _; simp [sweep3, TripleCoh]
  | cons x xs ih =>
    intro h
    have hx := h x (List.mem_cons_self x xs)
    have hxs := ih (fun y hy => h y (List.mem_cons_of_mem _ hy))
    rw [sweep3]
    rcases hgx : g x with ⟨e, w, b⟩
    rcases hsw : sweep3 g xs with ⟨e2, w2, b2⟩
    rw [hgx] at hx
    rw [hsw] at hxs
    unfold TripleCoh at *
    simp only [Bool.and_eq_true, List.append_eq_nil]
    exact and_congr hx hxs

theorem seqW_coh {p q : List String × Except String Bool} (hp : WalkCoh p)
    (hq : WalkCoh q) : WalkCoh (seqW p q) := by
  rcases p with ⟨es, r⟩
  cases r with
  | error e => intro b hb; exact absurd hb (by simp [seqW])
  | ok b1 =>
    rcases q with ⟨es2, r2⟩
    cases r2 with
    | error e => intro b hb; exact absurd hb (by simp [seqW, Except.map])
    | ok b2 =>
      intro b hb
      simp only [seqW, Except.map] at hb ⊢
      injection hb with hb
      subst hb
      have h1 := hp b1 rfl
      have h2 := hq b2 rfl
      simp only [Bool.and_eq_true, List.append_eq_nil]
      exact and_congr h1 h2

theorem navLeafCheck_coh (env : Env) (v : Yaml) : WalkCoh (navLeafCheck env v) := by
  intro b hb
  unfold navLeafCheck at hb ⊢
  rcases hj : pathJoinY env.docsDir v with e | fp
  · rw [hj] at hb
    exact absurd hb (by simp)
  · rw [hj] at hb
    dsimp only at hb ⊢
    split at hb <;> rename_i hcond
    · injection hb with hb
      subst hb
      have hmem : fp ∈ env.fsPaths := by simpa using hcond
      simp [hmem]
    · injection hb with hb
      subst hb
      have hmem : fp ∉ env.fsPaths := by simpa using hcond
      simp [hmem]

mutual
theorem check_nav_items_coh (env : Env) : ∀ (l : YSeq), WalkCoh (check_nav_items env l)
  | .nil => walkCoh_trivial
  | .cons item rest =>
    seqW_coh (navItemWalk_coh env item) (check_nav_items_coh env rest)

theorem navItemWalk_coh (env : Env) : ∀ (y : Yaml), WalkCoh (navItemWalk env y)
  | .dict entries => navEntryWalk_coh env entries
  | .str s => walkCoh_trivial
  | .int n => walkCoh_trivial
  | .bool v => walkCoh_trivial
  | .null => walkCoh_trivial
  | .list items => walkCoh_trivial

theorem navEntryWalk_coh (env : Env) : ∀ (m : YMap), WalkCoh (navEntryWalk env m)
  | .nil => walkCoh_trivial
  | .cons k (.list children) rest =>
    seqW_coh (check_nav_items_coh env children) (navEntryWalk_coh env rest)
  | .cons k (.str p) rest =>
    seqW_coh (navLeafCheck_coh env _) (navEntryWalk_coh env rest)
  | .cons k (.int n) rest =>
    seqW_coh (navLeafCheck_coh env _) (navEntryWalk_coh env rest)
  | .cons k (.bool v) rest =>
    seqW_coh (navLeafCheck_coh env _) (navEntryWalk_coh env rest)
  | .cons k .null rest =>
    seqW_coh (navLeafCheck_coh env _) (navEntryWalk_coh env rest)
  | .cons k (.dict m2) rest =>
    seqW_coh (navLeafCheck_coh env _) (navEntryWalk_coh env rest)
end

theorem titleCheck_coh (title : Yaml) : PairCoh (titleCheck title) := by
  cases title <;> simp [titleCheck, PairCoh]

mutual
theorem validate_nav_item_coh : ∀ (y : Yaml), PairCoh (validate_nav_item y)
  | .dict entries => navTitleWalk_coh entries
  | .str s => pairCoh_trivial
  | .int n => pairCoh_trivial
  | .bool v => pairCoh_trivial
  | .null => pairCoh_trivial
  | .list items => pairCoh_trivial

theorem navTitleWalk_coh : ∀ (m : YMap), PairCoh (navTitleWalk m)
  | .nil => pairCoh_trivial
  | .cons title content rest =>
    pairSeq_coh (titleCheck_coh title)
      (pairSeq_coh (contentCheck_coh content) (navTitleWalk_coh rest))

theorem contentCheck_coh : ∀ (y : Yaml), PairCoh (contentCheck y)
  | .list children => childFold_coh children
  | .str s => pairCoh_trivial
  | .int n => pairCoh_trivial
  | .bool v => pairCoh_trivial
  | .null => pairCoh_trivial
  | .dict m => pairCoh_trivial

theorem childFold_coh : ∀ (s : YSeq), PairCoh (childFold s)
  | .nil => pairCoh_trivial
  | .cons child rest =>
    pairSeq_coh (validate_nav_item_coh child) (childFold_coh rest)
end

theorem navAllSC_coh : ∀ (s : YSeq), PairCoh (navAllSC s)
  | .nil => pairCoh_trivial
  | .cons item rest => by
    have hi := validate_nav_item_coh item
    rcases hv : validate_nav_item item with ⟨es, b⟩
    rw [hv] at hi
    rw [navAllSC, hv]
    cases b with
    | false =>
      simp only [Bool.false_eq_true, if_false]
      unfold PairCoh at hi ⊢
      constructor
      · intro h; exact absurd h (by simp)
      · intro hnil; exact hi.mpr hnil
    | true =>
      have hrest := navAllSC_coh rest
      rcases hr : navAllSC rest with ⟨es2, b2⟩
      rw [hr] at hrest
      have hes : es = [] := hi.mp rfl
      subst hes
      simp only [if_true]
      unfold PairCoh at hrest ⊢
      simpa using hrest

/-! ## Validator lemmas: characterising `runChecks` -/

/-- The error strings one named check contributes to the report: its own
appended errors, plus the `Error in <name>: <message>` entry when it
raises. -/
def outErrors (n : String) (o : CheckOut) : List String :=
  match o.2.2 with
  | .ok _ => o.1
  | .error e => o.1 ++ ["Error in " ++ n ++ ": " ++ e]

/-- The success flag one check contributes: its boolean result, or
failure when it raises. -/
def outOk (o : CheckOut) : Bool :=
  match o.2.2 with
  | .ok b => b
  | .error _ => false

/-- All error strings a list of named checks appends, in order. -/
def errorsOf (env : Env) : List (String × Check) → List String
  | [] => []
  | (n, c) :: rest => outErrors n (c env) ++ errorsOf env rest

/-- All warning strings a list of named checks appends, in order. -/
def warnsOf (env : Env) : List (String × Check) → List String
  | [] => []
  | (_, c) :: rest => (c env).2.1 ++ warnsOf env rest

/-- The conjunction of a list of checks' contributed success flags. -/
def okOf (env : Env) : List (String × Check) → Bool
  | [] => true
  | (_, c) :: rest => outOk (c env) && okOf env rest

theorem runChecks_eq (env : Env) : ∀ (cs : List (String × Check)) (s : VState) (succ : Bool),
    runChecks env cs s succ =
      (⟨s.errors ++ errorsOf env cs, s.warnings ++ warnsOf env cs⟩,
        succ && okOf env cs) := by
  intro cs
  induction cs with
  | nil => intro s succ; simp [runChecks, errorsOf, warnsOf, okOf]
  | cons nc rest ih =>
    intro s succ
    obtain ⟨n, c⟩ := nc
    rw [runChecks]
    rcases hc : c env with ⟨es, ws, r⟩
    cases r with
    | ok b =>
      dsimp only
      rw [ih]
      simp only [errorsOf, warnsOf, okOf, outErrors, outOk, hc]
      simp [List.append_assoc, Bool.and_assoc]
    | error e =>
      dsimp only
      rw [ih]
      simp only [errorsOf, warnsOf, okOf, outErrors, outOk, hc]
      simp [List.append_assoc, Bool.and_assoc]

/-- A check is coherent when a returned `True` means it appended no
error and a returned `False` means it appended at least one. -/
def CheckCoh (c : Check) : Prop :=
  ∀ env, ((c env).2.2 = Except.ok true → (c env).1 = []) ∧
    ((c env).2.2 = Except.ok false → (c env).1 ≠ [])

theorem outOk_iff_outErrors {c : Check} (hc : CheckCoh c) (n : String) (env : Env) :
    outOk (c env) = true ↔ outErrors n (c env) = [] := by
  obtain ⟨h1, h2⟩ := hc env
  unfold outOk outErrors
  rcases hr : (c env).2.2 with e | b
  · simp
  · cases b with
    | true => simp [h1 hr]
    | false =>
      simp only []
      constructor
      · intro h; exact absurd h (by simp)
      · intro h; exact absurd h (h2 hr)

theorem okOf_iff_errorsOf (env : Env) : ∀ (cs : List (String × Check)),
    (∀ nc ∈ cs, CheckCoh nc.2) →
    (okOf env cs = true ↔ errorsOf env cs = []) := by
  intro cs
  induction cs with
  | nil => intro _; simp [okOf, errorsOf]
  | cons nc rest ih =>
    intro h
    obtain ⟨n, c⟩ := nc
    have h1 := outOk_iff_outErrors (h (n, c) (List.mem_cons_self _ _)) n env
    have h2 := ih (fun x hx => h x (List.mem_cons_of_mem _ hx))
    simp only [okOf, errorsOf, Bool.and_eq_true, List.append_eq_nil]
    exact and_congr h1 h2

/-! ## Validator lemmas: per-check coherence -/

theorem pairOut_coh {p : List String × Bool} (h : PairCoh p) :
    ((((p.1, [], .ok p.2) : CheckOut)).2.2 = Except.ok true → (p.1, ([] : List String), (Except.ok p.2 : Except String Bool)).1 = []) ∧
    ((((p.1, [], .ok p.2) : CheckOut)).2.2 = Except.ok false → (p.1, ([] : List String), (Except.ok p.2 : Except String Bool)).1 ≠ []) := by
  constructor
  · intro hb
    injection hb with hb
    exact h.mp hb
  · intro hb hnil
    injection hb with hb
    rw [h.mpr hnil] at hb
    exact absurd hb (by simp)

theorem check_files_exist_coh : CheckCoh check_files_exist := by
  intro env
  unfold check_files_exist
  cases hm : env.mkdocs with
  | error e =>
    simp only [hm]
    exact ⟨fun hb => absurd hb (by simp), fun hb => absurd hb (by simp)⟩
  | ok cfg =>
    simp only [hm]
    cases hn : configNav cfg with
    | error e =>
      simp only [hn]
      exact ⟨fun hb => absurd hb (by simp), fun hb => absurd hb (by simp)⟩
    | ok nav =>
      simp only [hn]
      cases hi : yamlIter nav with
      | error e =>
        simp only [hi]
        exact ⟨fun hb => absurd hb (by simp), fun hb => absurd hb (by simp)⟩
      | ok items =>
        simp only [hi]
        have hw := check_nav_items_coh env items
        constructor
        · intro hb
          exact (hw true hb).mp rfl
        · intro hb hnil
          have h2 := (hw false hb).mpr hnil
          exact absurd h2 (by simp)

theorem validate_internal_links_coh : CheckCoh validate_internal_links := by
  intro env
  unfold validate_internal_links
  apply pairOut_coh
  apply sweep_coh
  intro fc _
  apply sweep_coh
  intro tl _
  dsimp only
  unfold PairCoh
  split
  · simp
  · split
    · simp
    · split
      · simp
      · simp

theorem validate_code_blocks_coh : CheckCoh validate_code_blocks := by
  intro env
  unfold validate_code_blocks
  apply pairOut_coh
  apply sweep_coh
  intro fc _
  apply sweep_coh
  intro blk _
  dsimp only
  unfold PairCoh
  split
  · split
    · simp
    · simp
  · simp

theorem failOut_coh (m : String) :
    ((([m], [], Except.ok false) : CheckOut).2.2 = Except.ok true →
        (([m], ([] : List String), (Except.ok false : Except String Bool))).1 = []) ∧
      ((([m], [], Except.ok false) : CheckOut).2.2 = Except.ok false →
        (([m], ([] : List String), (Except.ok false : Except String Bool))).1 ≠ []) := by
  constructor
  · intro hb
    injection hb with hb
    exact absurd hb (by simp)
  · intro _
    simp

theorem validate_api_docs_coh : CheckCoh validate_api_docs := by
  intro env
  unfold validate_api_docs
  simp only []
  split
  · exact failOut_coh _
  · split
    · exact failOut_coh _
    · apply pairOut_coh
      apply sweep_coh
      intro sect _
      unfold PairCoh
      split
      · simp
      · simp

theorem validate_navigation_coh : CheckCoh validate_navigation := by
  intro env
  unfold validate_navigation
  cases hm : env.mkdocs with
  | error e =>
    simp only [hm]
    exact ⟨fun hb => absurd hb (by simp), fun hb => absurd hb (by simp)⟩
  | ok cfg =>
    simp only [hm]
    cases hn : configNav cfg with
    | error e =>
      simp only [hn]
      exact ⟨fun hb => absurd hb (by simp), fun hb => absurd hb (by simp)⟩
    | ok nav =>
      simp only [hn]
      cases hi : yamlIter nav with
      | error e =>
        simp only [hi]
        exact ⟨fun hb => absurd hb (by simp), fun hb => absurd hb (by simp)⟩
      | ok items =>
        simp only [hi]
        exact pairOut_coh (navAllSC_coh items)

theorem check_image_references_coh : CheckCoh check_image_references := by
  intro env
  unfold check_image_references
  apply pairOut_coh
  apply sweep_coh
  intro fc _
  apply sweep_coh
  intro ai _
  dsimp only
  unfold PairCoh
  split
  · simp
  · split
    · simp
    · simp

theorem validate_markdown_coh : CheckCoh validate_markdown := by
  intro env
  unfold validate_markdown
  have h := sweep3_coh
    (fun fc : String × String =>
      match env.render fc.2 with
      | .ok _ => (([] : List String), headingWarns fc.1 0 (extractHeads fc.2), true)
      | .error e =>
        (["Invalid markdown in " ++ fc.1 ++ ": " ++ e],
          headingWarns fc.1 0 (extractHeads fc.2), false))
    env.mdFiles ?_
  · constructor
    · intro hb
      injection hb with hb
      exact h.mp hb
    · intro hb hnil
      injection hb with hb
      rw [h.mpr hnil] at hb
      exact absurd hb (by simp)
  · intro fc _
    unfold TripleCoh
    dsimp only
    split
    · simp
    · simp

theorem checksList_coh : ∀ nc ∈ checksList, CheckCoh nc.2 := by
  intro nc hnc
  simp only [checksList, List.mem_cons, List.mem_singleton] at hnc
  rcases hnc with h | h | h | h | h | h | h | h
  · rw [h]; exact check_files_exist_coh
  · rw [h]; exact validate_internal_links_coh
  · rw [h]; exact validate_code_blocks_coh
  · rw [h]; exact validate_api_docs_coh
  · rw [h]; exact validate_navigation_coh
  · rw [h]; exact check_image_references_coh
  · rw [h]; exact validate_markdown_coh
  · exact absurd h (by simp)

/-! ## Concrete environments for witnesses -/

/-- A minimal concrete environment: an empty manifest nav, no markdown
files and no files on disk. -/
def envTrivial : Env :=
  { docsDir := "docs"
    mkdocs := .ok (.dict (.cons (.str "nav") (.list .nil) .nil))
    mdFiles := []
    fsPaths := []
    resolve := fun _ l => l
    render := fun _ => .ok ()
    pyCompile := fun _ => .ok ()
    fileText := fun _ => "" }

/-! ## Claims C1-C3 -/

/-- C1 counterexample: `validate_all` does not reset the report lists.
Run on an instance that still holds a stale error and a stale warning,
the report after `validate_all` still contains both stale entries (in
front of the entries of the new run), although a fresh instance running
the same environment produces neither. -/
theorem validate_all_keeps_stale_entries :
    validate_all envTrivial ⟨["stale error"], ["stale warning"]⟩ =
      (⟨["stale error", "Missing API documentation directory"], ["stale warning"]⟩, false) ∧
    validate_all envTrivial initValidator =
      (⟨["Missing API documentation directory"], []⟩, false) := by
  constructor
  · decide
  · decide

/-- C1 amended: the two report sequences are empty at construction, but
`validate_all` does not reset them: a run appends its own entries after
whatever the instance already recorded (the returned success flag is
unaffected by the retained entries). -/
theorem validate_all_appends_to_report (env : Env) (s : VState) :
    initValidator.errors = [] ∧ initValidator.warnings = [] ∧
    (validate_all env s).1.errors = s.errors ++ (validate_all env initValidator).1.errors ∧
    (validate_all env s).1.warnings = s.warnings ++ (validate_all env initValidator).1.warnings ∧
    (validate_all env s).2 = (validate_all env initValidator).2 := by
  refine ⟨rfl, rfl, ?_, ?_, ?_⟩ <;>
    simp [validate_all, runChecks_eq, initValidator]

/-- C2: the CLI exit status is 0 exactly when the run recorded no
errors; recorded warnings never affect it (the status is a function of
the error list alone). -/
theorem main_exit_zero_iff_no_errors (env : Env) :
    DocsValidator.main env = 0 ↔ (validate_all env initValidator).1.errors = [] := by
  unfold DocsValidator.main
  rw [validate_all, runChecks_eq]
  have h := okOf_iff_errorsOf env checksList checksList_coh
  simp only [initValidator, Bool.true_and, List.nil_append]
  constructor
  · intro h0
    by_cases hc : okOf env checksList = true
    · exact h.mp hc
    · rw [if_neg (by simpa using hc)] at h0
      exact absurd h0 (by simp)
  · intro he
    rw [if_pos (by simpa using h.mpr he)]

/-- C3: `validate_all` is exactly the fold of the seven named checks of
`checksList` in their listed order; a check that raises is converted
into a single `Error in <check>: <message>` report entry and a `False`
contribution while the remaining checks still run; a check that returns
contributes its flag; and the overall result is the conjunction of all
seven contributed flags. -/
theorem validate_all_pipeline (env : Env) (s : VState) :
    validate_all env s = runChecks env checksList s true ∧
    (∀ (n : String) (c : Check) (rest : List (String × Check)) (s2 : VState)
        (succ : Bool) (es ws : List String) (e : String),
        c env = (es, ws, Except.error e) →
        runChecks env ((n, c) :: rest) s2 succ =
          runChecks env rest
            ⟨s2.errors ++ es ++ ["Error in " ++ n ++ ": " ++ e], s2.warnings ++ ws⟩
            false) ∧
    (∀ (n : String) (c : Check) (rest : List (String × Check)) (s2 : VState)
        (succ : Bool) (es ws : List String) (b : Bool),
        c env = (es, ws, Except.ok b) →
        runChecks env ((n, c) :: rest) s2 succ =
          runChecks env rest ⟨s2.errors ++ es, s2.warnings ++ ws⟩ (succ && b)) ∧
    (validate_all env s).2 = okOf env checksList := by
  refine ⟨rfl, ?_, ?_, ?_⟩
  · intro n c rest s2 succ es ws e hc
    rw [runChecks, hc]
  · intro n c rest s2 succ es ws b hc
    rw [runChecks, hc]
  · rw [validate_all, runChecks_eq]
    simp

/-- Witness for C3: a concrete raising check is caught, reported and
converted to failure, and a concrete returning check passes its flag
through. -/
theorem validate_all_pipeline_witness :
    runChecks envTrivial [("boom", fun _ => ([], [], Except.error "failure"))]
        initValidator true = (⟨["Error in boom: failure"], []⟩, false) ∧
    runChecks envTrivial [("fine", fun _ => (["e1"], ["w1"], Except.ok true))]
        initValidator true = (⟨["e1"], ["w1"]⟩, true) := by
  have h := validate_all_pipeline envTrivial initValidator
  constructor
  · rw [h.2.1 "boom" (fun _ => ([], [], Except.error "failure")) [] initValidator
        true [] [] "failure" rfl]
    decide
  · rw [h.2.2.1 "fine" (fun _ => (["e1"], ["w1"], Except.ok true)) [] initValidator
        true ["e1"] ["w1"] true rfl]
    decide

/-! ## Claim C9: file-existence check on well-formed manifests -/

mutual
/-- The leaf file paths of a nav item sequence, in walk order. -/
def leafPathsItems : YSeq → List String
  | .nil => []
  | .cons i rest => leafPathsItem i ++ leafPathsItems rest

/-- The leaf file paths a single nav item contributes. -/
def leafPathsItem : Yaml → List String
  | .dict m => leafPathsMap m
  | _ => []

/-- The leaf file paths of a dict item's entries: a list value recurses,
a string value is a leaf path. -/
def leafPathsMap : YMap → List String
  | .nil => []
  | .cons _ (.list children) rest => leafPathsItems children ++ leafPathsMap rest
  | .cons _ (.str p) rest => p :: leafPathsMap rest
  | .cons _ _ rest => leafPathsMap rest
end

/-- The paths of `ps`, resolved under the documentation root, that do
not exist. -/
def missingUnder (env : Env) (ps : List String) : List String :=
  (ps.map (joinPath env.docsDir)).filter (fun fp => !env.fsPaths.contains fp)

/-- The walk outcome the spec promises for a well-formed manifest: one
`Missing file:` error naming each missing resolved leaf path, success
exactly when none is missing. -/
def missingReport (env : Env) (ps : List String) : List String × Except String Bool :=
  ((missingUnder env ps).map (fun fp => "Missing file: " ++ fp),
    .ok (missingUnder env ps).isEmpty)

mutual
/-- A well-formed manifest item per the spec data model (§3): a
single-pair dict from a title. -/
inductive WFItem : Yaml → Prop where
  | dict (m : YMap) : WFMap m → WFItem (.dict m)

/-- A well-formed single entry: title to leaf path, or title to an
ordered list of well-formed children. -/
inductive WFMap : YMap → Prop where
  | leaf (t p : String) : WFMap (.cons (.str t) (.str p) .nil)
  | node (t : String) (children : YSeq) : WFItems children →
      WFMap (.cons (.str t) (.list children) .nil)

/-- A well-formed sequence of manifest items. -/
inductive WFItems : YSeq → Prop where
  | nil : WFItems .nil
  | cons (i : Yaml) (rest : YSeq) : WFItem i → WFItems rest →
      WFItems (.cons i rest)
end

theorem isEmpty_append {α : Type} (x y : List α) :
    (x ++ y).isEmpty = (x.isEmpty && y.isEmpty) := by
  cases x <;> simp

theorem missingUnder_append (env : Env) (a b : List String) :
    missingUnder env (a ++ b) = missingUnder env a ++ missingUnder env b := by
  simp [missingUnder, List.filter_append]

theorem seqW_missingReport (env : Env) (a b : List String) :
    seqW (missingReport env a) (missingReport env b) = missingReport env (a ++ b) := by
  simp [seqW, missingReport, Except.map, missingUnder_append, isEmpty_append]

theorem missingReport_nil (env : Env) : missingReport env [] = ([], .ok true) := by
  simp [missingReport, missingUnder]

mutual
theorem check_nav_items_missing (env : Env) : ∀ (l : YSeq), WFItems l →
    check_nav_items env l = missingReport env (leafPathsItems l)
  | _, .nil => by
    rw [check_nav_items, leafPathsItems, missingReport_nil]
  | _, .cons i rest hi hrest => by
    rw [check_nav_items, navItemWalk_missing env i hi,
      check_nav_items_missing env rest hrest, seqW_missingReport, leafPathsItems]

theorem navItemWalk_missing (env : Env) : ∀ (y : Yaml), WFItem y →
    navItemWalk env y = missingReport env (leafPathsItem y)
  | _, .dict m hm => by
    rw [navItemWalk, navEntryWalk_missing env m hm, leafPathsItem]

theorem navEntryWalk_missing (env : Env) : ∀ (m : YMap), WFMap m →
    navEntryWalk env m = missingReport env (leafPathsMap m)
  | _, .leaf t p => by
    simp only [navEntryWalk, leafPathsMap]
    by_cases hc : joinPath env.docsDir p ∈ env.fsPaths
    · simp [navLeafCheck, pathJoinY, seqW, hc, missingReport, missingUnder, Except.map]
    · simp [navLeafCheck, pathJoinY, seqW, hc, missingReport, missingUnder, Except.map]
  | _, .node t children hch => by
    simp only [navEntryWalk, leafPathsMap]
    rw [check_nav_items_missing env children hch, ← missingReport_nil env,
      seqW_missingReport]
end

/-- C9: on a well-formed manifest, `check_files_exist` walks every leaf
without short-circuiting and reports exactly one error per missing leaf,
naming the leaf's resolved path under the documentation root; it
succeeds exactly when no leaf is missing (so a manifest whose leaves all
exist yields zero errors and `True`). -/
theorem check_files_exist_missing_files (env : Env) (entries : YMap) (items : YSeq)
    (hm : env.mkdocs = .ok (.dict entries))
    (hn : lookupYKey "nav" entries = some (.list items))
    (hwf : WFItems items) :
    check_files_exist env =
      ((missingUnder env (leafPathsItems items)).map (fun fp => "Missing file: " ++ fp),
        [], .ok (missingUnder env (leafPathsItems items)).isEmpty) := by
  unfold check_files_exist
  rw [hm]
  simp only [configNav, hn, Option.getD_some, yamlIter]
  rw [check_nav_items_missing env items hwf]
  simp [missingReport]

/-- A two-item nav manifest whose first leaf (`index.md`) is missing on
disk and whose nested second leaf (`a.md`) exists. -/
def navC9 : YSeq :=
  .cons (.dict (.cons (.str "Home") (.str "index.md") .nil))
    (.cons (.dict (.cons (.str "Guide")
      (.list (.cons (.dict (.cons (.str "A") (.str "a.md") .nil)) .nil)) .nil)) .nil)

/-- The environment holding `navC9` with only `docs/a.md` existing. -/
def envC9 : Env :=
  { docsDir := "docs"
    mkdocs := .ok (.dict (.cons (.str "nav") (.list navC9) .nil))
    mdFiles := []
    fsPaths := ["docs/a.md"]
    resolve := fun _ l => l
    render := fun _ => .ok ()
    pyCompile := fun _ => .ok ()
    fileText := fun _ => "" }

/-- Witness for C9: the manifest referencing the one missing file yields
exactly one file-existence error naming its resolved path, and the check
fails. -/
theorem check_files_exist_missing_files_witness :
    check_files_exist envC9 = (["Missing file: docs/index.md"], [], .ok false) := by
  have h := check_files_exist_missing_files envC9
    (.cons (.str "nav") (.list navC9) .nil) navC9 rfl rfl
    (WFItems.cons _ _ (WFItem.dict _ (WFMap.leaf "Home" "index.md"))
      (WFItems.cons _ _
        (WFItem.dict _ (WFMap.node "Guide" _
          (WFItems.cons _ _ (WFItem.dict _ (WFMap.leaf "A" "a.md")) WFItems.nil)))
        WFItems.nil))
  rw [h]
  rfl

/-! ## Claim C10: markdown files starting at heading level 2 or deeper -/

theorem headingWarns_first (file : String) (lvl : Nat) (title : String)
    (rest : List (Nat × String)) (h : 2 ≤ lvl) :
    ("Skipped heading level in " ++ file ++ ": " ++ title) ∈
      headingWarns file 0 ((lvl, title) :: rest) := by
  rw [headingWarns, if_pos (by omega)]
  exact List.mem_append_left _ (by simp)

theorem sweep3_warns_mem {α : Type} (g : α → List String × List String × Bool) :
    ∀ (l : List α) (x : α), x ∈ l → ∀ w ∈ (g x).2.1, w ∈ (sweep3 g l).2.1 := by
  intro l
  induction l with
  | nil => intro x hx; cases hx
  | cons y ys ih =>
    intro x hx w hw
    rw [sweep3]
    rcases hgy : g y with ⟨e, wr, b⟩
    rcases hsw : sweep3 g ys with ⟨e2, w2, b2⟩
    dsimp only
    rcases List.mem_cons.mp hx with rfl | hx2
    · rw [hgy] at hw
      exact List.mem_append_left _ hw
    · refine List.mem_append_right _ ?_
      have h2 := ih x hx2 w hw
      rw [hsw] at h2
      exact h2

theorem validate_markdown_warns (env : Env) (file content : String)
    (hmem : (file, content) ∈ env.mdFiles) (w : String)
    (hw : w ∈ headingWarns file 0 (extractHeads content)) :
    w ∈ (validate_markdown env).2.1 := by
  unfold validate_markdown
  dsimp only
  refine sweep3_warns_mem _ env.mdFiles (file, content) hmem w ?_
  dsimp only
  split
  · exact hw
  · exact hw

theorem validate_all_warns_mem (env : Env) (s : VState) (w : String)
    (hw : w ∈ (validate_markdown env).2.1) :
    w ∈ (validate_all env s).1.warnings := by
  rw [validate_all, runChecks_eq]
  dsimp only
  refine List.mem_append_right _ ?_
  simp only [checksList, warnsOf, List.append_nil]
  simp only [List.mem_append]
  tauto

/-- C10: because the heading tracker starts at level 0, a markdown file
whose first extracted heading is at level 2 or deeper is reported with a
skipped-heading-level warning in the `validate_all` report, even though
the file has no previous heading. -/
theorem first_heading_deep_warns (env : Env) (s : VState) (file content : String)
    (lvl : Nat) (title : String) (rest : List (Nat × String))
    (hmem : (file, content) ∈ env.mdFiles)
    (hhead : extractHeads content = (lvl, title) :: rest)
    (hlvl : 2 ≤ lvl) :
    ("Skipped heading level in " ++ file ++ ": " ++ title) ∈
      (validate_all env s).1.warnings := by
  apply validate_all_warns_mem
  apply validate_markdown_warns env file content hmem
  rw [hhead]
  exact headingWarns_first file lvl title rest hlvl

/-- An environment holding one markdown file that starts with an H2
heading. -/
def envC10 : Env :=
  { docsDir := "docs"
    mkdocs := .ok (.dict (.cons (.str "nav") (.list .nil) .nil))
    mdFiles := [("docs/g.md", "## Title")]
    fsPaths := []
    resolve := fun _ l => l
    render := fun _ => .ok ()
    pyCompile := fun _ => .ok ()
    fileText := fun _ => "" }

/-- Witness for C10: the file starting with `## Title` is reported with
the skipped-heading-level warning. -/
theorem first_heading_deep_warns_witness :
    "Skipped heading level in docs/g.md: Title" ∈
      (validate_all envC10 initValidator).1.warnings :=
  first_heading_deep_warns envC10 initValidator "docs/g.md" "## Title" 2 "Title" []
    (by decide) (by decide) (by decide)
